import Mathlib

/-
Shallow embedding of src/stats/collector.go (package stats of soitun/solo).

Modelling conventions:
  * Go `map[string]PendingStat` is modelled as an association list
    `List (String × PendingStat)`; iteration order of the Go map is
    unspecified, so every theorem below holds for an arbitrary list order.
  * Unix timestamps (`time.Now().Unix()`, an int64 that is nonnegative in
    practice) are modelled as `Nat`; Go truncated integer division by the
    positive constant 60 agrees with `Nat` division on nonnegative values.
  * `float64` quantities (hashrates) are modelled exactly as `ℚ`; the
    claims under study are about which formula is computed, not about
    rounding of the floating-point arithmetic.
  * `time.Now()` readings are supplied to the model as explicit clock
    inputs: the loop reads the clock once per iteration (line 84) and once
    more per worker while building the batch (line 96), so the batch
    builder receives a stream `clock : Nat → Nat` of per-row readings.
  * The database, the logger and the wait group are external collaborators:
    the model records the calls made to them (batches submitted to
    `DB.Write`, log messages emitted, `PruneStats` arguments) instead of
    executing them, and the result of `DB.Write` is an explicit
    `Except String Unit` input.
-/

namespace Solo

/-- Line 16 of collector.go: `const statCollectionPeriodSecs = 60`. -/
def statCollectionPeriodSecs : Nat := 60

/-- Line 17 of collector.go: `const keepStatsForSecs = 86400`. -/
def keepStatsForSecs : Nat := 86400

/-- Modelled from the spec: the `PendingStat` struct is not under src/;
its fields are those read by collector.go (ValidShares, StaleShares,
InvalidShares, ReportedHashrate, IPAddress) and section 3 of the design:
three share counters, the last self-reported hashrate and the last-seen
IP address. -/
structure PendingStat where
  ValidShares : Nat
  StaleShares : Nat
  InvalidShares : Nat
  ReportedHashrate : ℚ
  IPAddress : String
  deriving DecidableEq, Repr

/-- The `map[string]PendingStat` field `PendingStats` of the Collector,
modelled as an association list. -/
abbrev PendingMap := List (String × PendingStat)

/-- The `db.Stat` struct as constructed at lines 99 to 107 of collector.go:
all seven fields are assigned there, so the field list is visible in src/. -/
structure Stat where
  WorkerName : String
  ValidShareCount : Nat
  StaleShareCount : Nat
  InvalidShareCount : Nat
  ReportedHashrate : ℚ
  EffectiveHashrate : ℚ
  IPAddress : String
  deriving DecidableEq, Repr

/-- A persisted row: a `db.Stat` together with the timestamp passed to
`db.WriteStatToBatch` (the spec keys persisted rows by worker name and
bucket-aligned timestamp). -/
structure Row where
  stat : Stat
  Timestamp : Nat
  deriving DecidableEq, Repr

/-- Modelled from the spec: `db.WriteStatToBatch` is not under src/; per
section 6 the write batch is a sequence of PersistedStat rows keyed by
(WorkerName, Timestamp), so adding a stat to the batch appends one row
carrying the given timestamp. -/
def WriteStatToBatch (batch : List Row) (stat : Stat) (timestamp : Nat) : List Row :=
  batch ++ [{ stat := stat, Timestamp := timestamp }]

/-- The bucket alignment expression written inline at lines 68, 84 and 96
of collector.go: `time.Now().Unix() / statCollectionPeriodSecs *
statCollectionPeriodSecs` ("Get rid of remainder"). -/
def periodFloor (t : Nat) : Nat :=
  t / statCollectionPeriodSecs * statCollectionPeriodSecs

/-- Modelled from the spec: the `Record` operation is not under src/; per
section 4.1 it merges into the current entry of the given worker, summing
the three counters and overwriting ReportedHashrate and IPAddress with the
latest values, creating the entry if absent. -/
def Record (m : PendingMap) (workerName : String) (validDelta staleDelta invalidDelta : Nat)
    (reportedHashrate : ℚ) (ipAddress : String) : PendingMap :=
  match m with
  | [] => [(workerName,
      { ValidShares := validDelta
        StaleShares := staleDelta
        InvalidShares := invalidDelta
        ReportedHashrate := reportedHashrate
        IPAddress := ipAddress })]
  | (w, p) :: rest =>
    if w = workerName then
      (w, { ValidShares := p.ValidShares + validDelta
            StaleShares := p.StaleShares + staleDelta
            InvalidShares := p.InvalidShares + invalidDelta
            ReportedHashrate := reportedHashrate
            IPAddress := ipAddress }) :: rest
    else
      (w, p) :: Record rest workerName validDelta staleDelta invalidDelta reportedHashrate ipAddress

/-- Lines 40 to 46 of collector.go: `Clear` acquires the mutex and deletes
every key of `c.PendingStats`, so the map is empty afterwards. It is its
own critical section, separate from the one that builds the batch. -/
def Clear (_m : PendingMap) : PendingMap := []

/-- The Collector state visible to the model: the pending-stats map, the
configured share difficulty, and whether the context has been cancelled
(`Context` / `ContextCancelFunc` at lines 26 and 27). The database handle
and the wait group are external collaborators. -/
structure Collector where
  PendingStats : PendingMap
  ShareDifficulty : Nat
  cancelled : Bool
  deriving DecidableEq, Repr

/-- Lines 33 to 37 of collector.go: `Init` sets `PendingStats` to a fresh
empty map. -/
def Collector.Init (c : Collector) : Collector :=
  { c with PendingStats := [] }

/-- Lines 49 to 60 of collector.go: `NewCollector` stores the given share
difficulty, creates a fresh (uncancelled) context and calls `Init`. It
performs no validation of any kind and cannot fail. -/
def NewCollector (shareDifficulty : Nat) : Collector :=
  Collector.Init
    { PendingStats := []
      ShareDifficulty := shareDifficulty
      cancelled := false }

/-- Lines 128 to 130 of collector.go: `Stop` calls the context cancel
function, which marks the context as done. -/
def Collector.Stop (c : Collector) : Collector :=
  { c with cancelled := true }

/-- Log messages the flush path can emit. Lines 116 to 119 of collector.go
emit the `collected` message ("Successfully collected data") carrying the
running total; no constructor for a persistence failure is ever emitted by
`Run`, since the result of `DB.Write` at line 114 is discarded. -/
inductive LogMsg where
  | collected (totalCollectedHashrate : ℚ)
  | writeFailed (message : String)
  deriving DecidableEq, Repr

/-- Lines 94 to 109 of collector.go: the batch-building loop over
`c.PendingStats`. For the i-th entry it reads the clock (line 96) and
floors it to the bucket, computes `effectiveHashrate :=
float64(pendingStat.ValidShares) * float64(c.ShareDifficulty)` (line 97,
note: no division), adds `effectiveHashrate / statCollectionPeriodSecs` to
the running total (line 98), builds the `db.Stat` (lines 99 to 107) and
appends it to the batch (line 108). Returns the final batch and total. -/
def flushLoop (shareDifficulty : Nat) (clock : Nat → Nat) :
    Nat → List Row → ℚ → PendingMap → List Row × ℚ
  | _, batch, totalCollectedHashrate, [] => (batch, totalCollectedHashrate)
  | i, batch, totalCollectedHashrate, (workerName, pendingStat) :: rest =>
    let timestamp := periodFloor (clock i)
    let effectiveHashrate : ℚ := (pendingStat.ValidShares : ℚ) * (shareDifficulty : ℚ)
    let stat : Stat :=
      { WorkerName := workerName
        ValidShareCount := pendingStat.ValidShares
        StaleShareCount := pendingStat.StaleShares
        InvalidShareCount := pendingStat.InvalidShares
        ReportedHashrate := pendingStat.ReportedHashrate
        EffectiveHashrate := effectiveHashrate
        IPAddress := pendingStat.IPAddress }
    flushLoop shareDifficulty clock (i + 1) (WriteStatToBatch batch stat timestamp)
      (totalCollectedHashrate + effectiveHashrate / (statCollectionPeriodSecs : ℚ)) rest

/-- Everything one flush (lines 92 to 122 of collector.go) does, recorded:
the batches submitted to `DB.Write`, the log messages emitted, the
arguments passed to `PruneStats`, the pending map after `c.Clear()`, and
the value of `totalCollectedHashrate` after line 120. -/
structure FlushOutcome where
  writes : List (List Row)
  logs : List LogMsg
  pruneCalls : List Nat
  PendingStats : PendingMap
  totalCollectedHashrate : ℚ
  deriving Repr

/-- One flush, lines 92 to 122 of collector.go: build the batch under the
mutex, clear the map, submit the batch once to `DB.Write` (whose result,
`writeResult`, is discarded: the Go code does not bind the returned
error), log "Successfully collected data" with the running total, reset
the total to zero, and call `PruneStats keepStatsForSecs`. -/
def flushOutcome (shareDifficulty : Nat) (pending : PendingMap) (clock : Nat → Nat)
    (writeResult : Except String Unit) (totalIn : ℚ) : FlushOutcome :=
  let r := flushLoop shareDifficulty clock 0 [] totalIn pending
  { writes := [r.1]
    logs := [LogMsg.collected r.2]
    pruneCalls := [keepStatsForSecs]
    PendingStats := Clear pending
    totalCollectedHashrate := 0 }

/-- A `Record` call as delivered by a concurrent producer. -/
structure RecordCall where
  workerName : String
  validDelta : Nat
  staleDelta : Nat
  invalidDelta : Nat
  reportedHashrate : ℚ
  ipAddress : String

/-- Applies a batch of producer `Record` calls to the pending map, in
order. -/
def applyRecords (m : PendingMap) : List RecordCall → PendingMap
  | [] => m
  | r :: rest =>
    applyRecords
      (Record m r.workerName r.validDelta r.staleDelta r.invalidDelta r.reportedHashrate
        r.ipAddress) rest

/-- The inputs one iteration of the `Run` loop (lines 76 to 123) consumes:
the producer `Record` calls that completed since the previous iteration,
whether the context was already cancelled when the `select` ran, the
`time.Now()` reading of line 84, the per-row clock of line 96, and the
result of the `DB.Write` of line 114 for this period. This serialises
`Record` calls between loop iterations; the finer interleaving of a
`Record` with the two critical sections inside one flush is modelled
separately below. -/
structure IterInput where
  recs : List RecordCall
  cancelled : Bool
  now : Nat
  rowClock : Nat → Nat
  writeResult : Except String Unit

/-- The `Run` loop, lines 68 to 124 of collector.go, driven by a finite
list of iteration inputs. State threaded between iterations: the pending
map, `prevCollectionTimestamp` and `totalCollectedHashrate`. Each
iteration first absorbs the producer records, then runs the `select`: if
the context is done the loop returns (second component `true`); otherwise
it computes `currentCollectionTimestamp` (line 84); if it equals the
previous one it sleeps and continues; otherwise it sets the previous
marker to it (line 90) and flushes. The result pairs each flush outcome
with the boundary value that triggered it. -/
def runLoop (shareDifficulty : Nat) :
    PendingMap → Nat → ℚ → List IterInput → List (Nat × FlushOutcome) × Bool
  | _, _, _, [] => ([], false)
  | pending, prevCollectionTimestamp, totalCollectedHashrate, inp :: rest =>
    let pending := applyRecords pending inp.recs
    if inp.cancelled then ([], true)
    else
      let currentCollectionTimestamp := periodFloor inp.now
      if prevCollectionTimestamp = currentCollectionTimestamp then
        runLoop shareDifficulty pending prevCollectionTimestamp totalCollectedHashrate rest
      else
        let out := flushOutcome shareDifficulty pending inp.rowClock inp.writeResult
          totalCollectedHashrate
        let r := runLoop shareDifficulty out.PendingStats currentCollectionTimestamp
          out.totalCollectedHashrate rest
        ((currentCollectionTimestamp, out) :: r.1, r.2)

/-- The per-row timestamps the batch builder produces when started at row
index `i`: for each entry of the pending map, in order, the bucket floor
of the clock reading at that row. -/
def timestampsFrom (clock : Nat → Nat) : Nat → PendingMap → List Nat
  | _, [] => []
  | i, _ :: rest => periodFloor (clock i) :: timestampsFrom clock (i + 1) rest

/-! Concrete inputs used by the witness theorems below. -/

/-- A concrete run used to witness C6: start time 125 (startup boundary
120); three uncancelled iterations read the clock at 130 (still period
120: no flush fires at startup), 190 (crosses into 180) and 200 (period
180 again: no second flush for that index). -/
def c6Inputs : List IterInput :=
  [{ recs := [], cancelled := false, now := 130, rowClock := fun _ => 130,
     writeResult := Except.ok () },
   { recs := [], cancelled := false, now := 190, rowClock := fun _ => 190,
     writeResult := Except.ok () },
   { recs := [], cancelled := false, now := 200, rowClock := fun _ => 200,
     writeResult := Except.ok () }]

/-- The single row of the one-worker flush used to witness C7 and C8. -/
def c7Row : Row :=
  { stat :=
      { WorkerName := "rig1", ValidShareCount := 10, StaleShareCount := 0,
        InvalidShareCount := 0, ReportedHashrate := 500, EffectiveHashrate := 10000,
        IPAddress := "1.2.3.4" }
    Timestamp := 120 }

/-- An uncancelled iteration input reading the clock at 190, used to
witness C9. -/
def c9Flush : IterInput :=
  { recs := [], cancelled := false, now := 190, rowClock := fun _ => 190,
    writeResult := Except.ok () }

/-- A cancelled iteration input reading the clock at 200, used to witness
C9. -/
def c9Cancel : IterInput :=
  { recs := [], cancelled := true, now := 200, rowClock := fun _ => 200,
    writeResult := Except.ok () }

/-- A single uncancelled iteration input reading the clock at 130, used
to witness C10. -/
def c10Input : IterInput :=
  { recs := [], cancelled := false, now := 130, rowClock := fun _ => 130,
    writeResult := Except.ok () }

/-! Helper lemmas about the bucket floor and the batch-building loop. -/

theorem periodFloor_mod (t : Nat) : periodFloor t % statCollectionPeriodSecs = 0 := by
  simp [periodFloor, statCollectionPeriodSecs]

theorem periodFloor_mono {a b : Nat} (h : a ≤ b) : periodFloor a ≤ periodFloor b :=
  Nat.mul_le_mul_right _ (Nat.div_le_div_right h)

theorem flushLoop_mem_fst (shareDifficulty : Nat) (clock : Nat → Nat) :
    ∀ (ps : PendingMap) (i : Nat) (batch : List Row) (t : ℚ) (r : Row),
      r ∈ (flushLoop shareDifficulty clock i batch t ps).1 →
      r ∈ batch ∨ r.Timestamp % statCollectionPeriodSecs = 0 := by
  intro ps
  induction ps with
  | nil => intro i batch t r hr; exact Or.inl hr
  | cons wp rest ih =>
    intro i batch t r hr
    obtain ⟨workerName, pendingStat⟩ := wp
    rcases ih (i + 1) _ _ r hr with hmem | hmod
    · rcases List.mem_append.mp hmem with hb | hnew
      · exact Or.inl hb
      · refine Or.inr ?_
        have : r.Timestamp = periodFloor (clock i) := by
          simp [WriteStatToBatch] at hnew
          simp [hnew]
        rw [this]
        exact periodFloor_mod _
    · exact Or.inr hmod

theorem flushLoop_names (shareDifficulty : Nat) (clock : Nat → Nat) :
    ∀ (ps : PendingMap) (i : Nat) (batch : List Row) (t : ℚ),
      (flushLoop shareDifficulty clock i batch t ps).1.map (fun r => r.stat.WorkerName)
        = batch.map (fun r => r.stat.WorkerName) ++ ps.map Prod.fst := by
  intro ps
  induction ps with
  | nil => intro i batch t; simp [flushLoop]
  | cons wp rest ih =>
    intro i batch t
    obtain ⟨workerName, pendingStat⟩ := wp
    rw [flushLoop, ih]
    simp [WriteStatToBatch]

theorem flushLoop_timestamps (shareDifficulty : Nat) (clock : Nat → Nat) :
    ∀ (ps : PendingMap) (i : Nat) (batch : List Row) (t : ℚ),
      (flushLoop shareDifficulty clock i batch t ps).1.map (fun r => r.Timestamp)
        = batch.map (fun r => r.Timestamp) ++ timestampsFrom clock i ps := by
  intro ps
  induction ps with
  | nil => intro i batch t; simp [flushLoop, timestampsFrom]
  | cons wp rest ih =>
    intro i batch t
    obtain ⟨workerName, pendingStat⟩ := wp
    rw [flushLoop, ih]
    simp [WriteStatToBatch, timestampsFrom]

theorem flushLoop_effective (shareDifficulty : Nat) (clock : Nat → Nat) :
    ∀ (ps : PendingMap) (i : Nat) (batch : List Row) (t : ℚ),
      (flushLoop shareDifficulty clock i batch t ps).1.map (fun r => r.stat.EffectiveHashrate)
        = batch.map (fun r => r.stat.EffectiveHashrate)
          ++ ps.map (fun wp => (wp.2.ValidShares : ℚ) * (shareDifficulty : ℚ)) := by
  intro ps
  induction ps with
  | nil => intro i batch t; simp [flushLoop]
  | cons wp rest ih =>
    intro i batch t
    obtain ⟨workerName, pendingStat⟩ := wp
    rw [flushLoop, ih]
    simp [WriteStatToBatch]

theorem flushLoop_snd (shareDifficulty : Nat) (clock : Nat → Nat) :
    ∀ (ps : PendingMap) (i : Nat) (batch : List Row) (t : ℚ),
      (flushLoop shareDifficulty clock i batch t ps).2
        = t + (ps.map (fun wp =>
            (wp.2.ValidShares : ℚ) * (shareDifficulty : ℚ)
              / (statCollectionPeriodSecs : ℚ))).sum := by
  intro ps
  induction ps with
  | nil => intro i batch t; simp [flushLoop]
  | cons wp rest ih =>
    intro i batch t
    obtain ⟨workerName, pendingStat⟩ := wp
    rw [flushLoop, ih]
    simp [List.sum_cons]
    ring

theorem list_sum_div (l : List ℚ) (c : ℚ) :
    (l.map (fun x => x / c)).sum = l.sum / c := by
  induction l with
  | nil => simp
  | cons x rest ih => simp [List.sum_cons, ih, add_div]

/-! Claim theorems. -/

/-- Claim C1, evaluated at the failing input. Worker rig1 recorded 10 valid
shares with ShareDifficulty 1000 in a period. The flush persists a row
whose EffectiveHashrate field is 10 × 1000 = 10000 (line 97 of
collector.go multiplies but never divides), whereas the claim says the
persisted value is ValidShares × ShareDifficulty / 60 = 500/3 ≈ 166.67.
The two values differ, so the persisted field is the total hash count of
the period, not a per-second rate; the adjacent aggregate at line 98 of
the same function does divide by the period length and is logged with the
unit H/s, confirming the division is the intent. -/
theorem C1_effective_hashrate_not_divided :
    (flushOutcome 1000 [("rig1", ⟨10, 0, 0, 500, "1.2.3.4"⟩)] (fun _ => 125)
        (Except.ok ()) 0).writes
      = [[⟨⟨"rig1", 10, 0, 0, 500, 10000, "1.2.3.4"⟩, 120⟩]]
    ∧ (10000 : ℚ) ≠ 10 * 1000 / (statCollectionPeriodSecs : ℚ) := by
  constructor
  · simp [flushOutcome, flushLoop, WriteStatToBatch, periodFloor, statCollectionPeriodSecs]
    norm_num
  · simp [statCollectionPeriodSecs]
    norm_num

/-- Claim C2, evaluated at the failing interleaving. Lines 92 to 110 of
collector.go build the batch under the mutex and release it; `c.Clear()`
at line 112 is a separate critical section. In the window between them a
concurrent `Record` can complete. Concretely: the accumulator is empty;
the flush snapshots it (empty batch); a `Record` for worker w with one
valid share completes and creates a non-empty entry; `Clear` then erases
the map; the next flush snapshots the again-empty map. The completed
`Record` call is reflected in neither snapshot: the update is lost, which
contradicts the claimed indivisibility of snapshot-and-clear. -/
theorem C2_interleaved_record_lost :
    (flushLoop 1000 (fun _ => 125) 0 [] 0 ([] : PendingMap)).1 = []
    ∧ Record ([] : PendingMap) "w" 1 0 0 500 "1.2.3.4" ≠ []
    ∧ Clear (Record ([] : PendingMap) "w" 1 0 0 500 "1.2.3.4") = []
    ∧ (flushLoop 1000 (fun _ => 185) 0 [] 0
        (Clear (Record ([] : PendingMap) "w" 1 0 0 500 "1.2.3.4"))).1 = [] := by
  refine ⟨rfl, ?_, rfl, rfl⟩
  simp [Record]

/-- Claim C3 counterexample: construction with share difficulty 0 (a
non-positive difficulty) is not rejected; `NewCollector 0` succeeds and
returns a collector that stores difficulty 0 with an empty pending map. -/
theorem C3_zero_difficulty_accepted :
    (NewCollector 0).ShareDifficulty = 0 ∧ (NewCollector 0).PendingStats = [] :=
  ⟨rfl, rfl⟩

/-- Claim C3 as amended: `NewCollector` performs no configuration
validation and cannot fail; it accepts every share difficulty (including
zero), always starts with an empty pending map and an uncancelled
context, and the period length and retention horizon are the fixed
compile-time constants 60 and 86400, which are never checked. -/
theorem C3_construction_never_fails (shareDifficulty : Nat) :
    (NewCollector shareDifficulty).ShareDifficulty = shareDifficulty
    ∧ (NewCollector shareDifficulty).PendingStats = []
    ∧ (NewCollector shareDifficulty).cancelled = false
    ∧ statCollectionPeriodSecs = 60
    ∧ keepStatsForSecs = 86400 :=
  ⟨rfl, rfl, rfl, rfl, rfl⟩

/-- Claim C4 counterexample: when the batch write fails (here with error
"disk full"), the log output of the flush is exactly the unconditional
success message "Successfully collected data" carrying the aggregate
500/3; no failure entry of any kind is emitted, because line 114 of
collector.go discards the error returned by `DB.Write` without binding
it. The claim says the failure is logged. -/
theorem C4_write_failure_unlogged :
    (flushOutcome 1000 [("rig1", ⟨10, 0, 0, 500, "1.2.3.4"⟩)] (fun _ => 125)
        (Except.error "disk full") 0).logs = [LogMsg.collected (500 / 3)] := by
  simp [flushOutcome, flushLoop, WriteStatToBatch, periodFloor, statCollectionPeriodSecs]
  norm_num

/-- Claim C4 as amended: a write-batch failure is silently discarded for
that period, without retry and without being logged: the whole flush
outcome is independent of the write result, exactly one write is
submitted per flush, the success log is emitted unconditionally, and the
loop is not blocked: in a run whose first boundary write fails, the next
boundary is still flushed normally (two flush outcomes are produced). -/
theorem C4_failure_silently_discarded (shareDifficulty : Nat) (pending : PendingMap)
    (clock : Nat → Nat) (e : String) (total : ℚ) (c1 c2 : Nat → Nat) :
    flushOutcome shareDifficulty pending clock (Except.error e) total
      = flushOutcome shareDifficulty pending clock (Except.ok ()) total
    ∧ (flushOutcome shareDifficulty pending clock (Except.error e) total).writes.length = 1
    ∧ (flushOutcome shareDifficulty pending clock (Except.error e) total).logs
        = [LogMsg.collected (flushLoop shareDifficulty clock 0 [] total pending).2]
    ∧ (runLoop shareDifficulty pending (periodFloor 100) total
        [⟨[], false, 125, c1, Except.error e⟩, ⟨[], false, 185, c2, Except.ok ()⟩]).1.length
      = 2 := by
  refine ⟨rfl, rfl, rfl, ?_⟩
  simp [runLoop, applyRecords, periodFloor, statCollectionPeriodSecs]

/-- Claim C5 counterexample: a flush whose boundary detection at line 84
read the clock at 125 (so the boundary just crossed is 120) processes two
workers; the per-row clock reads 178 for the first row and 181 for the
second, because line 96 of collector.go calls `time.Now()` again for
every row. The two persisted rows carry timestamps 120 and 180: they do
not share one timestamp, and the second differs from the triggering
boundary 120. -/
theorem C5_rows_straddle_boundary :
    (flushLoop 1000 (fun i => if i = 0 then 178 else 181) 0 [] 0
        [("a", ⟨1, 0, 0, 0, "1.1.1.1"⟩), ("b", ⟨2, 0, 0, 0, "2.2.2.2"⟩)]).1.map
          (fun r => r.Timestamp) = [120, 180]
    ∧ periodFloor 125 = 120
    ∧ (180 : Nat) ≠ 120 := by
  refine ⟨?_, by simp [periodFloor, statCollectionPeriodSecs], by simp⟩
  simp [flushLoop, WriteStatToBatch, periodFloor, statCollectionPeriodSecs]

/-- Invariant of the `Run` loop: as long as no iteration is cancelled and
the clock readings are nondecreasing and their bucket floors stay at or
above the previous-boundary marker, the boundary values that trigger
flushes form a strictly increasing sequence above the marker, and every
observed bucket floor other than the marker itself triggers a flush. -/
theorem runLoop_flush_indices (shareDifficulty : Nat) :
    ∀ (inputs : List IterInput) (pending : PendingMap) (prev : Nat) (total : ℚ),
      (∀ inp ∈ inputs, inp.cancelled = false) →
      List.Sorted (· ≤ ·) (inputs.map (fun inp => inp.now)) →
      (∀ inp ∈ inputs, prev ≤ periodFloor inp.now) →
      List.Pairwise (· < ·)
        (prev :: (runLoop shareDifficulty pending prev total inputs).1.map Prod.fst)
      ∧ ∀ inp ∈ inputs, periodFloor inp.now = prev
          ∨ periodFloor inp.now
              ∈ (runLoop shareDifficulty pending prev total inputs).1.map Prod.fst := by
  intro inputs
  induction inputs with
  | nil =>
    intro pending prev total _ _ _
    exact ⟨by simp [runLoop], by simp⟩
  | cons inp rest ih =>
    intro pending prev total hcf hsort hlb
    have hc0 : inp.cancelled = false := hcf inp (List.mem_cons_self _ _)
    rw [List.map_cons] at hsort
    have hsort' := List.sorted_cons.mp hsort
    by_cases hpc : prev = periodFloor inp.now
    · have hstep : runLoop shareDifficulty pending prev total (inp :: rest)
          = runLoop shareDifficulty (applyRecords pending inp.recs) prev total rest := by
        simp [runLoop, hc0, hpc]
      obtain ⟨hpw, hmem⟩ := ih (applyRecords pending inp.recs) prev total
        (fun i hi => hcf i (List.mem_cons_of_mem _ hi))
        hsort'.2
        (fun i hi => by
          have h1 : inp.now ≤ i.now := hsort'.1 _ (List.mem_map_of_mem _ hi)
          exact hpc ▸ periodFloor_mono h1)
      refine ⟨by rw [hstep]; exact hpw, ?_⟩
      intro i hi
      rcases List.mem_cons.mp hi with rfl | hi'
      · exact Or.inl hpc.symm
      · rw [hstep]
        exact hmem i hi'
    · have hle : prev ≤ periodFloor inp.now := hlb inp (List.mem_cons_self _ _)
      have hlt : prev < periodFloor inp.now := lt_of_le_of_ne hle hpc
      have hstep : runLoop shareDifficulty pending prev total (inp :: rest)
          = ((periodFloor inp.now,
                flushOutcome shareDifficulty (applyRecords pending inp.recs) inp.rowClock
                  inp.writeResult total) ::
              (runLoop shareDifficulty
                (flushOutcome shareDifficulty (applyRecords pending inp.recs) inp.rowClock
                  inp.writeResult total).PendingStats
                (periodFloor inp.now)
                (flushOutcome shareDifficulty (applyRecords pending inp.recs) inp.rowClock
                  inp.writeResult total).totalCollectedHashrate rest).1,
             (runLoop shareDifficulty
                (flushOutcome shareDifficulty (applyRecords pending inp.recs) inp.rowClock
                  inp.writeResult total).PendingStats
                (periodFloor inp.now)
                (flushOutcome shareDifficulty (applyRecords pending inp.recs) inp.rowClock
                  inp.writeResult total).totalCollectedHashrate rest).2) := by
        simp [runLoop, hc0, hpc]
      obtain ⟨hpw, hmem⟩ := ih
        (flushOutcome shareDifficulty (applyRecords pending inp.recs) inp.rowClock
          inp.writeResult total).PendingStats
        (periodFloor inp.now)
        (flushOutcome shareDifficulty (applyRecords pending inp.recs) inp.rowClock
          inp.writeResult total).totalCollectedHashrate
        (fun i hi => hcf i (List.mem_cons_of_mem _ hi))
        hsort'.2
        (fun i hi => periodFloor_mono (hsort'.1 _ (List.mem_map_of_mem _ hi)))
      constructor
      · rw [hstep]
        simp only [List.map_cons]
        refine List.pairwise_cons.mpr ⟨?_, hpw⟩
        intro x hx
        rcases List.mem_cons.mp hx with rfl | hx'
        · exact hlt
        · exact lt_trans hlt ((List.pairwise_cons.mp hpw).1 x hx')
      · intro i hi
        rcases List.mem_cons.mp hi with rfl | hi'
        · rw [hstep]
          exact Or.inr (by simp)
        · rw [hstep]
          simp only [List.map_cons]
          rcases hmem i hi' with heq | hin
          · exact Or.inr (heq ▸ List.mem_cons_self _ _)
          · exact Or.inr (List.mem_cons_of_mem _ hin)

/-- Claim C6: over any run of loop iterations with nondecreasing clock
readings (starting from the startup reading that initialises the
previous-boundary marker at line 68) and no cancellation, each flush is
tagged with a distinct new period boundary (no index is flushed twice, no
matter how many iterations observed it), the startup boundary itself is
never flushed (no flush fires immediately on start), and every boundary
observed by some iteration other than the startup one does trigger its
flush. -/
theorem C6_one_flush_per_new_index (shareDifficulty : Nat) (pending : PendingMap)
    (total : ℚ) (start : Nat) (inputs : List IterInput)
    (hcancel : ∀ inp ∈ inputs, inp.cancelled = false)
    (hmono : List.Sorted (· ≤ ·) (start :: inputs.map (fun inp => inp.now))) :
    ((runLoop shareDifficulty pending (periodFloor start) total inputs).1.map Prod.fst).Nodup
    ∧ periodFloor start
        ∉ (runLoop shareDifficulty pending (periodFloor start) total inputs).1.map Prod.fst
    ∧ ∀ inp ∈ inputs, periodFloor inp.now = periodFloor start
        ∨ periodFloor inp.now
            ∈ (runLoop shareDifficulty pending (periodFloor start) total inputs).1.map
                Prod.fst := by
  have hs := List.sorted_cons.mp hmono
  obtain ⟨hpw, hmem⟩ := runLoop_flush_indices shareDifficulty inputs pending
    (periodFloor start) total hcancel hs.2
    (fun i hi => periodFloor_mono (hs.1 _ (List.mem_map_of_mem _ hi)))
  have hpc := List.pairwise_cons.mp hpw
  refine ⟨hpc.2.imp (fun h => ne_of_lt h), ?_, hmem⟩
  intro hin
  exact lt_irrefl _ (hpc.1 _ hin)

/-- Witness for C6 at the concrete run `c6Inputs`, with both hypotheses
discharged by computation. -/
theorem C6_one_flush_per_new_index_witness :
    (∀ inp ∈ c6Inputs, inp.cancelled = false)
    ∧ List.Sorted (· ≤ ·) (125 :: c6Inputs.map (fun inp => inp.now))
    ∧ ((runLoop 1000 [] (periodFloor 125) 0 c6Inputs).1.map Prod.fst).Nodup
    ∧ periodFloor 125 ∉ (runLoop 1000 [] (periodFloor 125) 0 c6Inputs).1.map Prod.fst
    ∧ ∀ inp ∈ c6Inputs, periodFloor inp.now = periodFloor 125
        ∨ periodFloor inp.now ∈ (runLoop 1000 [] (periodFloor 125) 0 c6Inputs).1.map
            Prod.fst := by
  refine ⟨by decide, by decide, ?_⟩
  exact C6_one_flush_per_new_index 1000 [] 0 125 c6Inputs (by decide) (by decide)

/-- Claim C7: every row of every batch a flush submits to the store
carries a timestamp that is an exact multiple of the period length:
line 96 of collector.go floors the clock reading to the bucket before
attaching it. -/
theorem C7_timestamps_are_multiples (shareDifficulty : Nat) (pending : PendingMap)
    (clock : Nat → Nat) (writeResult : Except String Unit) (total : ℚ)
    (b : List Row) (r : Row)
    (hb : b ∈ (flushOutcome shareDifficulty pending clock writeResult total).writes)
    (hr : r ∈ b) :
    r.Timestamp % statCollectionPeriodSecs = 0 := by
  have hb' : b = (flushLoop shareDifficulty clock 0 [] total pending).1 := by
    simpa [flushOutcome] using hb
  subst hb'
  rcases flushLoop_mem_fst shareDifficulty clock pending 0 [] total r hr with h | h
  · exact absurd h (List.not_mem_nil r)
  · exact h

/-- Witness for C7: the concrete one-worker flush produces the batch
`[c7Row]`, whose only row has timestamp 120, a multiple of 60. -/
theorem C7_timestamps_are_multiples_witness :
    [c7Row] ∈ (flushOutcome 1000 [("rig1", ⟨10, 0, 0, 500, "1.2.3.4"⟩)] (fun _ => 125)
          (Except.ok ()) 0).writes
    ∧ c7Row ∈ [c7Row]
    ∧ c7Row.Timestamp % statCollectionPeriodSecs = 0 := by
  have hb : [c7Row] ∈ (flushOutcome 1000 [("rig1", ⟨10, 0, 0, 500, "1.2.3.4"⟩)]
      (fun _ => 125) (Except.ok ()) 0).writes := by
    simp [flushOutcome, flushLoop, WriteStatToBatch, periodFloor, statCollectionPeriodSecs,
      c7Row]
    norm_num
  have hr : c7Row ∈ [c7Row] := List.mem_singleton_self _
  exact ⟨hb, hr, C7_timestamps_are_multiples 1000 _ _ _ _ _ _ hb hr⟩

/-- Claim C8: the batch a flush submits contains exactly one row per
worker that had an entry in the accumulator during the period: the row
count equals the number of (distinct) pending workers, the row worker
names are exactly the pending keys, and a worker with no entry has no row
(no synthetic zero rows). -/
theorem C8_one_row_per_active_worker (shareDifficulty : Nat) (pending : PendingMap)
    (clock : Nat → Nat) (writeResult : Except String Unit) (total : ℚ)
    (hnodup : (pending.map Prod.fst).Nodup)
    (b : List Row)
    (hb : b ∈ (flushOutcome shareDifficulty pending clock writeResult total).writes) :
    b.length = pending.length
    ∧ b.map (fun r => r.stat.WorkerName) = pending.map Prod.fst
    ∧ (b.map (fun r => r.stat.WorkerName)).Nodup
    ∧ ∀ w, w ∉ pending.map Prod.fst → ∀ r ∈ b, r.stat.WorkerName ≠ w := by
  have hb' : b = (flushLoop shareDifficulty clock 0 [] total pending).1 := by
    simpa [flushOutcome] using hb
  subst hb'
  have hnames := flushLoop_names shareDifficulty clock pending 0 [] total
  simp only [List.map_nil, List.nil_append] at hnames
  refine ⟨?_, hnames, hnames ▸ hnodup, ?_⟩
  · have hlen := congrArg List.length hnames
    simpa using hlen
  · intro w hw r hr hcontra
    apply hw
    have : r.stat.WorkerName ∈ pending.map Prod.fst := by
      rw [← hnames]
      exact List.mem_map_of_mem _ hr
    exact hcontra ▸ this

/-- Witness for C8: the concrete one-worker flush produces exactly one
row, named rig1, and any other worker has no row. -/
theorem C8_one_row_per_active_worker_witness :
    ((([("rig1", (⟨10, 0, 0, 500, "1.2.3.4"⟩ : PendingStat))] : PendingMap).map
        Prod.fst).Nodup)
    ∧ [c7Row] ∈ (flushOutcome 1000 [("rig1", ⟨10, 0, 0, 500, "1.2.3.4"⟩)] (fun _ => 125)
          (Except.ok ()) 0).writes
    ∧ ([c7Row].length = ([("rig1", (⟨10, 0, 0, 500, "1.2.3.4"⟩ : PendingStat))] :
          PendingMap).length
        ∧ [c7Row].map (fun r => r.stat.WorkerName)
            = ([("rig1", (⟨10, 0, 0, 500, "1.2.3.4"⟩ : PendingStat))] : PendingMap).map
                Prod.fst
        ∧ ([c7Row].map (fun r => r.stat.WorkerName)).Nodup
        ∧ ∀ w, w ∉ ([("rig1", (⟨10, 0, 0, 500, "1.2.3.4"⟩ : PendingStat))] :
              PendingMap).map Prod.fst →
            ∀ r ∈ [c7Row], r.stat.WorkerName ≠ w) := by
  have hb : [c7Row] ∈ (flushOutcome 1000 [("rig1", ⟨10, 0, 0, 500, "1.2.3.4"⟩)]
      (fun _ => 125) (Except.ok ()) 0).writes := by
    simp [flushOutcome, flushLoop, WriteStatToBatch, periodFloor, statCollectionPeriodSecs,
      c7Row]
    norm_num
  exact ⟨by decide, hb,
    C8_one_row_per_active_worker 1000 _ _ _ _ (by decide) _ hb⟩

/-- Claim C9: cancellation is observed only at the `select` that starts an
iteration: an iteration that begins with the context done returns at once
without flushing (one polling granularity); a flush that has begun runs
to completion even when cancellation arrives during it (it is observed at
the next iteration instead), so the full outcome of the in-progress flush
is still produced; and `Stop`, which just invokes the context cancel
function, is idempotent. -/
theorem C9_stop_semantics (shareDifficulty : Nat) (pending : PendingMap) (prev : Nat)
    (total : ℚ) (inp inp2 : IterInput) (rest : List IterInput) (c : Collector)
    (hcancelled : inp.cancelled = true)
    (hrunning : inp2.cancelled = false)
    (hcross : prev ≠ periodFloor inp2.now) :
    runLoop shareDifficulty pending prev total (inp :: rest) = ([], true)
    ∧ (runLoop shareDifficulty pending prev total (inp2 :: inp :: rest)).1
        = [(periodFloor inp2.now,
            flushOutcome shareDifficulty (applyRecords pending inp2.recs) inp2.rowClock
              inp2.writeResult total)]
    ∧ Collector.Stop (Collector.Stop c) = Collector.Stop c := by
  refine ⟨?_, ?_, rfl⟩
  · simp [runLoop, hcancelled]
  · simp [runLoop, hcancelled, hrunning, hcross]

/-- Witness for C9: with the previous boundary at 120, a cancelled
iteration stops the loop at once with no flush; an iteration reading 190
flushes fully even though the next iteration is cancelled; and stopping a
freshly constructed collector twice equals stopping it once. -/
theorem C9_stop_semantics_witness :
    c9Cancel.cancelled = true
    ∧ c9Flush.cancelled = false
    ∧ (120 : Nat) ≠ periodFloor c9Flush.now
    ∧ (runLoop 1000 [] 120 0 [c9Cancel] = ([], true)
      ∧ (runLoop 1000 [] 120 0 [c9Flush, c9Cancel]).1
        = [(periodFloor c9Flush.now,
            flushOutcome 1000 (applyRecords [] c9Flush.recs) c9Flush.rowClock
              c9Flush.writeResult 0)]
      ∧ Collector.Stop (Collector.Stop (NewCollector 5)) = Collector.Stop (NewCollector 5)) := by
  refine ⟨rfl, rfl, by decide, ?_⟩
  exact C9_stop_semantics 1000 [] 120 0 c9Cancel c9Flush [] (NewCollector 5) rfl rfl (by decide)

/-- Claim C5 as amended: each persisted row carries the bucket floor of a
fresh wall-clock reading taken while that row is processed (line 96 is
re-evaluated per row); the full list of row timestamps of one flush is
exactly the per-row bucket floors in iteration order, so rows share the
triggering boundary timestamp only when every per-row reading still falls
in the period of that boundary, and a flush that straddles a boundary
produces rows with different timestamps. -/
theorem C5_timestamps_recomputed_per_row (shareDifficulty : Nat) (clock : Nat → Nat)
    (pending : PendingMap) (total : ℚ) :
    (flushLoop shareDifficulty clock 0 [] total pending).1.map (fun r => r.Timestamp)
      = timestampsFrom clock 0 pending := by
  simpa using flushLoop_timestamps shareDifficulty clock pending 0 [] total

/-- A flush that starts with the running total at zero logs exactly the
sum of the effective hashrates of its own batch, each divided by the
period length. -/
theorem flushOutcome_log_zero (shareDifficulty : Nat) (pending : PendingMap)
    (clock : Nat → Nat) (writeResult : Except String Unit) :
    (flushOutcome shareDifficulty pending clock writeResult 0).logs
      = [LogMsg.collected
          ((((flushOutcome shareDifficulty pending clock writeResult 0).writes.headI).map
              (fun r => r.stat.EffectiveHashrate)).sum
            / (statCollectionPeriodSecs : ℚ))] := by
  simp only [flushOutcome, List.headI]
  rw [flushLoop_snd shareDifficulty clock pending 0 [] 0,
    flushLoop_effective shareDifficulty clock pending 0 [] 0]
  simp [← list_sum_div, List.map_map, Function.comp_def]

/-- In any run of the loop started with the running total at zero, every
flush logs exactly the batch it wrote in that period: the reset at line
120 of collector.go prevents any carry-over into the next period's log. -/
theorem runLoop_flush_logs (shareDifficulty : Nat) :
    ∀ (inputs : List IterInput) (pending : PendingMap) (prev : Nat),
      ∀ p ∈ (runLoop shareDifficulty pending prev 0 inputs).1,
        p.2.logs = [LogMsg.collected
          (((p.2.writes.headI).map (fun r => r.stat.EffectiveHashrate)).sum
            / (statCollectionPeriodSecs : ℚ))] := by
  intro inputs
  induction inputs with
  | nil =>
    intro pending prev p hp
    simp [runLoop] at hp
  | cons inp rest ih =>
    intro pending prev p hp
    by_cases hc : inp.cancelled = true
    · simp [runLoop, hc] at hp
    · have hc0 : inp.cancelled = false := by simpa using hc
      by_cases hpc : prev = periodFloor inp.now
      · have hstep : runLoop shareDifficulty pending prev 0 (inp :: rest)
            = runLoop shareDifficulty (applyRecords pending inp.recs) prev 0 rest := by
          simp [runLoop, hc0, hpc]
        rw [hstep] at hp
        exact ih _ prev p hp
      · have ht : (flushOutcome shareDifficulty (applyRecords pending inp.recs) inp.rowClock
            inp.writeResult 0).totalCollectedHashrate = 0 := rfl
        have hstep : (runLoop shareDifficulty pending prev 0 (inp :: rest)).1
            = (periodFloor inp.now,
                flushOutcome shareDifficulty (applyRecords pending inp.recs) inp.rowClock
                  inp.writeResult 0) ::
              (runLoop shareDifficulty
                (flushOutcome shareDifficulty (applyRecords pending inp.recs) inp.rowClock
                  inp.writeResult 0).PendingStats
                (periodFloor inp.now) 0 rest).1 := by
          simp [runLoop, hc0, hpc, ht]
        rw [hstep] at hp
        rcases List.mem_cons.mp hp with rfl | hp'
        · exact flushOutcome_log_zero shareDifficulty (applyRecords pending inp.recs)
            inp.rowClock inp.writeResult
        · exact ih _ (periodFloor inp.now) p hp'

/-- Claim C10: a flush entered with the running total at zero logs the
aggregate equal to the sum over the snapshot's workers of
ValidShares × ShareDifficulty / periodLengthSeconds, and resets the
running total to zero afterwards; consequently, in any run of the loop
(the loop starts with the total at zero at line 74), every flush's
emitted summary is derived from its own period's batch only, with no
carry-over from a previous period. -/
theorem C10_aggregate_log_and_reset (shareDifficulty : Nat) (pending : PendingMap)
    (clock : Nat → Nat) (writeResult : Except String Unit) (prev : Nat)
    (inputs : List IterInput) :
    ((flushOutcome shareDifficulty pending clock writeResult 0).logs
        = [LogMsg.collected ((pending.map (fun wp =>
            (wp.2.ValidShares : ℚ) * (shareDifficulty : ℚ)
              / (statCollectionPeriodSecs : ℚ))).sum)]
      ∧ (flushOutcome shareDifficulty pending clock writeResult 0).totalCollectedHashrate
          = 0)
    ∧ ∀ p ∈ (runLoop shareDifficulty pending prev 0 inputs).1,
        p.2.logs = [LogMsg.collected
          (((p.2.writes.headI).map (fun r => r.stat.EffectiveHashrate)).sum
            / (statCollectionPeriodSecs : ℚ))] := by
  refine ⟨⟨?_, rfl⟩, runLoop_flush_logs shareDifficulty inputs pending prev⟩
  simp only [flushOutcome]
  rw [flushLoop_snd shareDifficulty clock pending 0 [] 0]
  simp

/-- Witness for C10: in a one-iteration run crossing from boundary 60 to
120 with one pending worker, the single flush logs exactly the sum of its
own batch's effective hashrates divided by the period length. -/
theorem C10_aggregate_log_and_reset_witness :
    ((120 : Nat), flushOutcome 1000 [("rig1", (⟨10, 0, 0, 500, "1.2.3.4"⟩ : PendingStat))]
        c10Input.rowClock c10Input.writeResult 0)
      ∈ (runLoop 1000 [("rig1", ⟨10, 0, 0, 500, "1.2.3.4"⟩)] 60 0 [c10Input]).1
    ∧ (flushOutcome 1000 [("rig1", (⟨10, 0, 0, 500, "1.2.3.4"⟩ : PendingStat))]
        c10Input.rowClock c10Input.writeResult 0).logs
      = [LogMsg.collected
          ((((flushOutcome 1000 [("rig1", (⟨10, 0, 0, 500, "1.2.3.4"⟩ : PendingStat))]
                c10Input.rowClock c10Input.writeResult 0).writes.headI).map
              (fun r => r.stat.EffectiveHashrate)).sum
            / (statCollectionPeriodSecs : ℚ))] := by
  have hrun : (runLoop 1000 [("rig1", (⟨10, 0, 0, 500, "1.2.3.4"⟩ : PendingStat))] 60 0
      [c10Input]).1
      = [((120 : Nat), flushOutcome 1000
          [("rig1", (⟨10, 0, 0, 500, "1.2.3.4"⟩ : PendingStat))]
          c10Input.rowClock c10Input.writeResult 0)] := by
    simp [runLoop, applyRecords, periodFloor, statCollectionPeriodSecs, c10Input]
  have hm : ((120 : Nat), flushOutcome 1000
      [("rig1", (⟨10, 0, 0, 500, "1.2.3.4"⟩ : PendingStat))]
      c10Input.rowClock c10Input.writeResult 0)
      ∈ (runLoop 1000 [("rig1", (⟨10, 0, 0, 500, "1.2.3.4"⟩ : PendingStat))] 60 0
          [c10Input]).1 := by
    rw [hrun]
    exact List.mem_singleton_self _
  exact ⟨hm, (C10_aggregate_log_and_reset 1000
    [("rig1", (⟨10, 0, 0, 500, "1.2.3.4"⟩ : PendingStat))]
    c10Input.rowClock c10Input.writeResult 60 [c10Input]).2 _ hm⟩

end Solo
